import Mathlib

/-!
Shallow embedding of the entry-point and error-reporting layer of the
cargo repository (src/cargo/lib.rs), together with spec-modelled cores
(dependency resolver, job scheduler) whose implementation lives outside
the shown source tree.  Definitions mirror the source; theorems settle
the frozen claims about it.
-/

/-- Verbosity levels of the shell (core::shell::Verbosity).  Only the
distinction between `Verbose` and the rest matters to the code under
study. -/
inductive Verbosity
  | verbose
  | normal
  | quiet
  deriving DecidableEq, Repr

/-- One observable output action of the `MultiShell`:
`error` is `shell.error(..)`, `say` is `shell.say(.., BLACK)` on the
stdout shell, `errSay` is `shell.err().say(.., BLACK)`. -/
inductive OutEvent
  | error (msg : String)
  | say (msg : String)
  | errSay (msg : String)
  deriving DecidableEq, Repr

/-- Modelled from the spec: the error taxonomy of §7 (`SourceUnavailable`,
`ResolutionConflict`, `GraphError`, `CompileFailure`, `Internal`, plus a
plain-message kind), since `util::errors` is not under the shown source;
`lib.rs` pattern-matches on the `Internal` variant only. -/
inductive CargoErrorKind
  | internal
  | sourceUnavailable
  | resolutionConflict
  | graphError
  | compileFailure
  | msg
  deriving DecidableEq, Repr

/-- One element of an error cause chain as traversed by
`ChainedError::iter()`: either a `CargoError` (downcast succeeds, its
kind is inspectable) or a foreign `Error` (downcast fails). -/
inductive ChainLink
  | cargo (kind : CargoErrorKind) (message : String)
  | foreign (message : String)
  deriving DecidableEq, Repr

/-- Modelled from the spec: errors carry an ordered cause chain (each
layer wraps the one below without discarding it); `error_chain`-style
error with its kind, display message and causes. -/
structure CargoError where
  kind : CargoErrorKind
  message : String
  causes : List ChainLink
  deriving DecidableEq, Repr

/-- The sequence produced by `cargo_err.iter()`: the error itself first,
then each cause in order. -/
def CargoError.chainIter (e : CargoError) : List ChainLink :=
  ChainLink.cargo e.kind e.message :: e.causes

/-- Whether `err.downcast_ref::<CargoError>()` yields
`CargoError(CargoErrorKind::Internal(..), ..)` for this link. -/
def linkIsInternal : ChainLink → Bool
  | ChainLink.cargo CargoErrorKind.internal _ => true
  | _ => false

/-- Display message of a chain link. -/
def linkMessage : ChainLink → String
  | ChainLink.cargo _ m => m
  | ChainLink.foreign m => m

/-- The local `print` helper of `handle_cause`: says a separator line and
the indented cause on the error shell. -/
def printCause (msg : String) : List OutEvent :=
  [OutEvent.errSay "\nCaused by:", OutEvent.errSay ("  " ++ msg)]

/-- Events printed by running the `print` helper over a list of chain
links in order. -/
def printCauses (ls : List ChainLink) : List OutEvent :=
  ls.foldr (fun l acc => printCause (linkMessage l) ++ acc) []

/-- The non-verbose loop of `handle_cause`: print remaining errors until
one marked as `Internal` appears, returning `false` there. -/
def handleCauseLoop : List ChainLink → List OutEvent × Bool
  | [] => ([], true)
  | l :: ls =>
    if linkIsInternal l then ([], false)
    else
      let r := handleCauseLoop ls
      (printCause (linkMessage l) ++ r.1, r.2)

/-- Embedding of `handle_cause` (lib.rs:211-253): returns the events it
prints on the shell and its boolean result.  The first error of the
chain has already been printed by the caller, so iteration skips it. -/
def handle_cause (e : CargoError) (v : Verbosity) : List OutEvent × Bool :=
  if v = Verbosity.verbose then
    (printCauses (e.chainIter.drop 1), true)
  else
    handleCauseLoop (e.chainIter.drop 1)

/-- The `CliError` struct as destructured in lib.rs:180: an optional
wrapped error, a process exit code (i32) and the `unknown` marker. -/
structure CliError where
  error : Option CargoError
  exit_code : Int
  unknown : Bool
  deriving DecidableEq, Repr

/-- Modelled from the spec: `CliError::new(msg.into(), code)` as used at
lib.rs:121 wraps the given message into an error with the given exit
code (the constructor itself lives in `util`, outside the shown
source); such an error is not marked unknown. -/
def CliError.new (message : String) (code : Int) : CliError :=
  { error := some { kind := CargoErrorKind.msg, message := message, causes := [] }
    exit_code := code
    unknown := false }

/-- The hint printed by `exit_with_error` (lib.rs:196-197). -/
def hintText : String :=
  "\nTo learn more, run the command again with --verbose."

/-- Embedding of `exit_with_error` (lib.rs:177-202): returns the events
printed on the shell and the process exit code passed to
`std::process::exit`. -/
def exit_with_error (err : CliError) (v : Verbosity) : List OutEvent × Int :=
  match err.error with
  | some e =>
    let first :=
      if err.unknown = true ∧ v ≠ Verbosity.verbose then
        [OutEvent.error "An unknown error occurred"]
      else if err.exit_code ≠ 0 then
        [OutEvent.error e.message]
      else
        [OutEvent.say e.message]
    let hc := handle_cause e v
    let hintEvents :=
      if hc.2 = false ∨ (err.unknown = true ∧ v ≠ Verbosity.verbose) then
        [OutEvent.errSay hintText]
      else []
    (first ++ hc.1 ++ hintEvents, err.exit_code)
  | none => ([], err.exit_code)

/-- Git commit information carried by a configure/make build
(lib.rs:62-66). -/
structure CommitInfo where
  short_commit_hash : String
  commit_hash : String
  commit_date : String
  deriving DecidableEq, Repr

/-- Build configuration information (lib.rs:68-73). -/
structure CfgInfo where
  commit_info : Option CommitInfo
  release_channel : String
  deriving DecidableEq, Repr

/-- Version information of the binary (lib.rs:75-83). -/
structure VersionInfo where
  major : String
  minor : String
  patch : String
  pre_release : Option String
  cfg_info : Option CfgInfo
  deriving DecidableEq, Repr

/-- Embedding of `impl fmt::Display for VersionInfo` (lib.rs:85-105):
the sequence of `write!` calls accumulated into one string. -/
def versionInfoDisplay (v : VersionInfo) : String :=
  let s := "cargo " ++ v.major ++ "." ++ v.minor ++ "." ++ v.patch
  let s :=
    match v.cfg_info with
    | some ci =>
      if ci.release_channel ≠ "stable" then
        s ++ "-" ++ ci.release_channel ++ (v.pre_release.getD "")
      else s
    | none => s
  match v.cfg_info with
  | some cfg =>
    match cfg.commit_info with
    | some ci => s ++ " (" ++ ci.short_commit_hash ++ " " ++ ci.commit_date ++ ")"
    | none => s
  | none => s

/-- Outcome of `docopt.decode()`: the decoded flags or a docopt error
with its display message and fatality (docopt is an external crate, so
decoding is an oracle parameter of the embedding). -/
structure DocoptError where
  message : String
  fatal : Bool
  deriving DecidableEq, Repr

/-- Embedding of `call_main_without_stdin` (lib.rs:107-125): builds the
docopt decoder from the usage string, the argument list and the
`options_first` flag, maps a decoding failure to a `CliError` with exit
code 1 when fatal and 0 otherwise, and otherwise runs `exec`. -/
def call_main_without_stdin {Flags Config : Type}
    (decode : String → List String → Bool → Except DocoptError Flags)
    (exec : Flags → Config → Except CliError Unit)
    (config : Config) (usage : String) (args : List String)
    (options_first : Bool) : Except CliError Unit :=
  match decode usage args options_first with
  | Except.error e => Except.error (CliError.new e.message (if e.fatal then 1 else 0))
  | Except.ok flags => exec flags config

/-- Modelled from the spec: a Dependency requirement (§3) — package name
plus a version requirement.  The requirement is an inclusive range over
abstract version numbers, since version-string parsing semantics are an
excluded external collaborator (§1); optionality, features and platform
filters do not bear on the frozen claims and are elided. -/
structure Dep where
  name : String
  minVer : Nat
  maxVer : Nat
  deriving DecidableEq, Repr

/-- Whether a concrete version satisfies the requirement. -/
def Dep.satisfiedBy (d : Dep) (v : Nat) : Bool :=
  decide (d.minVer ≤ v) && decide (v ≤ d.maxVer)

/-- Modelled from the spec: a Summary (§3) — metadata for one candidate
version of a package: its identity and its declared dependency
requirements.  Produced by a Source; never mutated. -/
structure Summary where
  name : String
  version : Nat
  deps : List Dep
  deriving DecidableEq, Repr

/-- Insertion step of the newest-first candidate ordering. -/
def insertByVersionDesc (s : Summary) : List Summary → List Summary
  | [] => [s]
  | t :: ts =>
    if t.version ≤ s.version then s :: t :: ts else t :: insertByVersionDesc s ts

/-- Modelled from the spec: order candidates from newest-compatible to
oldest, tie-break newest wins (§4.2) — a deterministic insertion sort by
version, descending. -/
def sortByVersionDesc : List Summary → List Summary
  | [] => []
  | s :: ss => insertByVersionDesc s (sortByVersionDesc ss)

/-- Modelled from the spec: `list_candidates(name)` filtered to the
Summaries whose version satisfies the requirement (§4.2), ordered
newest first.  A Source is embedded as the list of all Summaries it can
supply. -/
def availCandidates (src : List Summary) (d : Dep) : List Summary :=
  sortByVersionDesc (src.filter (fun s => s.name == d.name && d.satisfiedBy s.version))

/-- Modelled from the spec: an existing lockfile, when present and still
satisfying the requirement, is a strong preference — the already-locked
version is tried before any other candidate (§4.2). -/
def candidatesFor (src : List Summary) (lock : Option (List Summary)) (d : Dep) :
    List Summary :=
  let avail := availCandidates src d
  match lock with
  | some lk =>
    match lk.find? (fun s => s.name == d.name) with
    | some l => if l ∈ avail then l :: avail.filter (fun s => decide (s ≠ l)) else avail
    | none => avail
  | none => avail

/-- An activated dependency edge of a Resolve: the requirement together
with the target PackageId it was resolved to. -/
structure ResolveEdge where
  dep : Dep
  targetName : String
  targetVersion : Nat
  deriving DecidableEq, Repr

/-- Modelled from the spec: the Resolve (§3) — the set of activated
PackageIds (as full Summaries) and the activated dependency edges. -/
structure Resolve where
  pkgs : List Summary
  edges : List ResolveEdge
  deriving DecidableEq, Repr

/-- First successful result of `f` over a list, scanning left to right
(the backtracking candidate trial: later candidates are tried only when
every earlier one fails). -/
def firstSome {α β : Type} (f : α → Option β) : List α → Option β
  | [] => none
  | a :: rest =>
    match f a with
    | some b => some b
    | none => firstSome f rest

/-- Modelled from the spec: the resolver search (§4.2) — maintain the
activated set and a worklist of unresolved requirements; for each
requirement either reuse the already-activated version of that name
(conflict if it does not satisfy) or greedily activate the first untried
candidate, pushing its transitive requirements onto the worklist, and
backtrack to the next candidate on failure.  Fuel bounds the search
depth explicitly. -/
def resolveGo : Nat → List Summary → Option (List Summary) → List Summary →
    List Dep → List ResolveEdge → Option Resolve
  | 0, _, _, _, _, _ => none
  | Nat.succ fuel, src, lock, activated, work, edges =>
    match work with
    | [] => some { pkgs := activated, edges := edges }
    | d :: rest =>
      match activated.find? (fun s => s.name == d.name) with
      | some s =>
        if d.satisfiedBy s.version then
          resolveGo fuel src lock activated rest
            ({ dep := d, targetName := s.name, targetVersion := s.version } :: edges)
        else none
      | none =>
        firstSome
          (fun c =>
            resolveGo fuel src lock (c :: activated) (c.deps ++ rest)
              ({ dep := d, targetName := c.name, targetVersion := c.version } :: edges))
          (candidatesFor src lock d)

/-- Modelled from the spec: the resolver entry point — resolve the root
requirements against a Source, with an optional prior lockfile. -/
def resolve (fuel : Nat) (src : List Summary) (lock : Option (List Summary))
    (reqs : List Dep) : Option Resolve :=
  resolveGo fuel src lock [] reqs []

/-- One line of the lockfile serialization of a resolved package. -/
def pkgLine (s : Summary) : String :=
  s.name ++ " " ++ toString s.version ++ "\n"

/-- Lexicographic order on character lists, used as the concrete total
order on package names for lockfile sorting. -/
def charListLt : List Char → List Char → Bool
  | [], [] => false
  | [], _ :: _ => true
  | _ :: _, [] => false
  | a :: restA, b :: restB =>
    if a.toNat < b.toNat then true
    else if b.toNat < a.toNat then false
    else charListLt restA restB

/-- Lockfile ordering: by name, then by version (§3, Lockfile record). -/
def pkgLE (a b : Summary) : Bool :=
  if a.name = b.name then decide (a.version ≤ b.version)
  else charListLt a.name.data b.name.data

/-- Insertion step of the lockfile ordering. -/
def insertByNameVer (s : Summary) : List Summary → List Summary
  | [] => [s]
  | t :: ts => if pkgLE s t then s :: t :: ts else t :: insertByNameVer s ts

/-- Deterministic insertion sort realizing the lockfile ordering. -/
def sortByNameVer : List Summary → List Summary
  | [] => []
  | s :: ss => insertByNameVer s (sortByNameVer ss)

/-- Modelled from the spec: the Lockfile (§3, §6) — a flattened
serialization of every resolved PackageId, sorted by name then version
for stable, deterministic output. -/
def serializeLockfile (r : Resolve) : String :=
  (sortByNameVer r.pkgs).foldr (fun s acc => pkgLine s ++ acc) ""

/-- Modelled from the spec: the per-Unit states of the Job Scheduler
(§4.5): Pending → Ready → Running → Succeeded | Failed. -/
inductive UnitState
  | pending
  | ready
  | running
  | succeeded
  | failed
  deriving DecidableEq, Repr

/-- Modelled from the spec: a Unit of the Unit DAG, reduced to what the
scheduler claims need — the indices of the Units it depends on. -/
structure BuildUnit where
  unitDeps : List Nat
  deriving DecidableEq, Repr

/-- Number of Units currently in the `Running` state. -/
def runningCount (sts : List UnitState) : Nat :=
  sts.countP (fun st => decide (st = UnitState.running))

/-- Modelled from the spec: one transition of the Job Scheduler (§4.5).
`budget` is the size of the global token pool; `units` the (read-only)
Unit DAG.  A Unit becomes Ready when all its dependencies Succeeded, may
start Running only while a token is free (strictly fewer than `budget`
Units Running), finishes as Succeeded or Failed, and a Unit whose
dependency Failed is marked Failed without execution. -/
inductive SchedStep (budget : Nat) (units : List BuildUnit) :
    List UnitState → List UnitState → Prop
  | makeReady (sts : List UnitState) (i : Nat) (u : BuildUnit)
      (hu : units.get? i = some u)
      (hst : sts.get? i = some UnitState.pending)
      (hdeps : ∀ j ∈ u.unitDeps, sts.get? j = some UnitState.succeeded) :
      SchedStep budget units sts (sts.set i UnitState.ready)
  | start (sts : List UnitState) (i : Nat)
      (hst : sts.get? i = some UnitState.ready)
      (htok : runningCount sts < budget) :
      SchedStep budget units sts (sts.set i UnitState.running)
  | finishOk (sts : List UnitState) (i : Nat)
      (hst : sts.get? i = some UnitState.running) :
      SchedStep budget units sts (sts.set i UnitState.succeeded)
  | finishFail (sts : List UnitState) (i : Nat)
      (hst : sts.get? i = some UnitState.running) :
      SchedStep budget units sts (sts.set i UnitState.failed)
  | propagateFail (sts : List UnitState) (i : Nat) (u : BuildUnit) (j : Nat)
      (hu : units.get? i = some u)
      (hst : sts.get? i = some UnitState.pending ∨ sts.get? i = some UnitState.ready)
      (hj : j ∈ u.unitDeps)
      (hjf : sts.get? j = some UnitState.failed) :
      SchedStep budget units sts (sts.set i UnitState.failed)

/-- The initial scheduler state: every Unit Pending. -/
def initSched (n : Nat) : List UnitState :=
  List.replicate n UnitState.pending

/-- States reachable by the scheduler from the initial state. -/
inductive SchedReachable (budget : Nat) (units : List BuildUnit) :
    List UnitState → Prop
  | init : SchedReachable budget units (initSched units.length)
  | step {s t : List UnitState} (hs : SchedReachable budget units s)
      (hstep : SchedStep budget units s t) : SchedReachable budget units t

/-- Demo requirement on package b used by concrete witnesses. -/
def demoDepB : Dep :=
  { name := "b", minVer := 1, maxVer := 5 }

/-- Demo Source: one version of a, two of b. -/
def demoSrc : List Summary :=
  [ { name := "a", version := 1, deps := [demoDepB] },
    { name := "b", version := 1, deps := [] },
    { name := "b", version := 2, deps := [] } ]

/-- Demo Source extended with a newer compatible version of b. -/
def demoSrc2 : List Summary :=
  { name := "b", version := 3, deps := [] } :: demoSrc

/-- Demo root requirements. -/
def demoReqs : List Dep :=
  [ { name := "a", minVer := 1, maxVer := 1 } ]

/-- The Resolve the demo resolution produces. -/
def demoResolve : Resolve :=
  { pkgs :=
      [ { name := "b", version := 2, deps := [] },
        { name := "a", version := 1, deps := [demoDepB] } ],
    edges :=
      [ { dep := demoDepB, targetName := "b", targetVersion := 2 },
        { dep := { name := "a", minVer := 1, maxVer := 1 }, targetName := "a",
          targetVersion := 1 } ] }

/-- Demo error whose cause chain contains an Internal-kind cause. -/
def demoErrInternal : CargoError :=
  { kind := CargoErrorKind.msg
    message := "top"
    causes :=
      [ ChainLink.foreign "io failure",
        ChainLink.cargo CargoErrorKind.internal "invariant broken",
        ChainLink.foreign "after" ] }

/-- Demo error with a plain cause chain. -/
def demoErrPlain : CargoError :=
  { kind := CargoErrorKind.msg
    message := "boom"
    causes := [] }

/-- Demo docopt decoder that always succeeds with flags 7. -/
def demoDecodeOk : String → List String → Bool → Except DocoptError Nat :=
  fun _ _ _ => Except.ok 7

/-- Demo docopt decoder that always fails with a non-fatal error. -/
def demoDecodeErr : String → List String → Bool → Except DocoptError Nat :=
  fun _ _ _ => Except.error { message := "cargo 0.1", fatal := false }

/-- Demo exec body for the entry point. -/
def demoExec : Nat → Unit → Except CliError Unit :=
  fun _ _ => Except.ok ()

theorem printCauses_cons (l : ChainLink) (ls : List ChainLink) :
    printCauses (l :: ls) = printCause (linkMessage l) ++ printCauses ls := rfl

theorem mem_printCauses_of_mem (l : ChainLink) (ls : List ChainLink) (h : l ∈ ls) :
    OutEvent.errSay ("  " ++ linkMessage l) ∈ printCauses ls := by
  induction ls with
  | nil => cases h
  | cons a rest ih =>
    rw [printCauses_cons]
    rcases List.mem_cons.mp h with rfl | hm
    · exact List.mem_append_left _ (by simp [printCause])
    · exact List.mem_append_right _ (ih hm)

theorem handleCauseLoop_of_any (ls : List ChainLink)
    (h : ls.any linkIsInternal = true) :
    handleCauseLoop ls =
      (printCauses (ls.takeWhile (fun l => !linkIsInternal l)), false) := by
  induction ls with
  | nil => simp at h
  | cons l rest ih =>
    by_cases hl : linkIsInternal l = true
    · simp [handleCauseLoop, hl, List.takeWhile_cons, printCauses]
    · have hrest : rest.any linkIsInternal = true := by
        simp [List.any_cons, hl] at h
        simpa using h
      simp [handleCauseLoop, hl, List.takeWhile_cons, printCauses_cons, ih hrest]

theorem handleCauseLoop_of_not_any (ls : List ChainLink)
    (h : ls.any linkIsInternal = false) :
    handleCauseLoop ls = (printCauses ls, true) := by
  induction ls with
  | nil => simp [handleCauseLoop, printCauses]
  | cons l rest ih =>
    rw [List.any_cons] at h
    rcases Bool.or_eq_false_iff.mp h with ⟨h1, h2⟩
    simp [handleCauseLoop, h1, printCauses_cons, ih h2]

/-- C1: for an error whose cause chain (the links after the first, as
iterated by `handle_cause`) contains an Internal-kind link, in
non-verbose mode `handle_cause` prints exactly the causes preceding the
first Internal one, returns `false`, and `exit_with_error` consequently
prints the hint to re-run with `--verbose`. -/
theorem handle_cause_nonverbose_stops_at_internal
    (e : CargoError) (v : Verbosity) (code : Int) (unk : Bool)
    (hv : v ≠ Verbosity.verbose)
    (hin : e.causes.any linkIsInternal = true) :
    handle_cause e v =
      (printCauses (e.causes.takeWhile (fun l => !linkIsInternal l)), false)
    ∧ OutEvent.errSay hintText ∈
        (exit_with_error { error := some e, exit_code := code, unknown := unk } v).1 := by
  have hdrop : (e.chainIter.drop 1) = e.causes := rfl
  have hc : handle_cause e v =
      (printCauses (e.causes.takeWhile (fun l => !linkIsInternal l)), false) := by
    unfold handle_cause
    rw [if_neg hv, hdrop]
    exact handleCauseLoop_of_any e.causes hin
  refine ⟨hc, ?_⟩
  show OutEvent.errSay hintText ∈ (exit_with_error ⟨some e, code, unk⟩ v).1
  unfold exit_with_error
  simp only [hc]
  rw [if_pos (Or.inl trivial)]
  exact List.mem_append_right _ (by simp)

/-- C1 witness at a concrete error chain containing an Internal cause. -/
theorem handle_cause_nonverbose_stops_at_internal_witness :
    handle_cause demoErrInternal Verbosity.normal =
      (printCauses (demoErrInternal.causes.takeWhile (fun l => !linkIsInternal l)), false)
    ∧ OutEvent.errSay hintText ∈
        (exit_with_error
          { error := some demoErrInternal, exit_code := 101, unknown := false }
          Verbosity.normal).1 :=
  handle_cause_nonverbose_stops_at_internal demoErrInternal Verbosity.normal 101 false
    (by decide) (by decide)

/-- C2: in verbose mode `handle_cause` prints every cause after the
first, in chain order, and returns `true`; in particular every cause in
the chain appears in the output. -/
theorem handle_cause_verbose_prints_all (e : CargoError) :
    handle_cause e Verbosity.verbose = (printCauses e.causes, true)
    ∧ ∀ l ∈ e.causes,
        OutEvent.errSay ("  " ++ linkMessage l) ∈
          (handle_cause e Verbosity.verbose).1 := by
  have hc : handle_cause e Verbosity.verbose = (printCauses e.causes, true) := by
    unfold handle_cause
    rw [if_pos rfl]
    rfl
  refine ⟨hc, fun l hl => ?_⟩
  rw [hc]
  exact mem_printCauses_of_mem l e.causes hl

/-- C3: an unknown `CliError` in non-verbose mode is reported as the
generic message `An unknown error occurred` with the re-run hint always
printed; a known error, or any error under a verbose shell, is reported
with its own message instead. -/
theorem exit_with_error_unknown_generic
    (e : CargoError) (code : Int) (unk : Bool) (v : Verbosity) :
    (unk = true → v ≠ Verbosity.verbose →
      (exit_with_error { error := some e, exit_code := code, unknown := unk } v).1.head? =
        some (OutEvent.error "An unknown error occurred")
      ∧ OutEvent.errSay hintText ∈
          (exit_with_error { error := some e, exit_code := code, unknown := unk } v).1)
    ∧ ((unk = false ∨ v = Verbosity.verbose) →
      (exit_with_error { error := some e, exit_code := code, unknown := unk } v).1.head? =
        some (if code ≠ 0 then OutEvent.error e.message else OutEvent.say e.message)) := by
  constructor
  · intro hu hv
    simp only [exit_with_error]
    rw [if_pos ⟨hu, hv⟩]
    constructor
    · rfl
    · by_cases hb : (handle_cause e v).2 = false
      · rw [if_pos (Or.inl hb)]
        exact List.mem_append_right _ (by simp)
      · rw [if_pos (Or.inr ⟨hu, hv⟩)]
        exact List.mem_append_right _ (by simp)
  · intro hkv
    have hide : ¬(unk = true ∧ v ≠ Verbosity.verbose) := by
      rcases hkv with h | h
      · intro hc; rw [h] at hc; exact Bool.false_ne_true hc.1
      · intro hc; exact hc.2 h
    simp only [exit_with_error]
    rw [if_neg hide]
    by_cases hcode : code ≠ 0
    · rw [if_pos hcode, if_pos hcode]
      rfl
    · rw [if_neg hcode, if_neg hcode]
      rfl

/-- C3 witness at a concrete unknown error under a normal shell. -/
theorem exit_with_error_unknown_generic_witness :
    (exit_with_error { error := some demoErrPlain, exit_code := 1, unknown := true }
        Verbosity.normal).1.head? =
      some (OutEvent.error "An unknown error occurred")
    ∧ OutEvent.errSay hintText ∈
        (exit_with_error { error := some demoErrPlain, exit_code := 1, unknown := true }
          Verbosity.normal).1 :=
  (exit_with_error_unknown_generic demoErrPlain 1 true Verbosity.normal).1 rfl (by decide)

/-- C4 counterexample: a `CliError` with exit code 0 that is marked
unknown, under a non-verbose shell, is not printed as plain output —
its message never appears as a `say` event and the first event is an
error-styled one — refuting the claim that an `exit_code` of 0 always
has the message printed as plain output rather than as an error. -/
theorem exit_with_error_zero_code_counterexample :
    (exit_with_error { error := some demoErrPlain, exit_code := 0, unknown := true }
        Verbosity.normal).2 = 0
    ∧ OutEvent.say "boom" ∉
        (exit_with_error { error := some demoErrPlain, exit_code := 0, unknown := true }
          Verbosity.normal).1
    ∧ (exit_with_error { error := some demoErrPlain, exit_code := 0, unknown := true }
        Verbosity.normal).1.head? =
      some (OutEvent.error "An unknown error occurred") := by decide

/-- C4 amended: `exit_with_error` always terminates with exactly the
error's `exit_code`; when the error is not hidden (not unknown, or the
shell is verbose), exit code 0 prints the message as plain output and a
nonzero exit code prints it as an error; when the error is unknown and
the shell non-verbose, the generic message is printed as an error
regardless of the exit code. -/
theorem exit_with_error_exit_code_amended (err : CliError) (v : Verbosity) :
    (exit_with_error err v).2 = err.exit_code
    ∧ (∀ e, err.error = some e → ¬(err.unknown = true ∧ v ≠ Verbosity.verbose) →
        (exit_with_error err v).1.head? =
          some (if err.exit_code ≠ 0 then OutEvent.error e.message
                else OutEvent.say e.message))
    ∧ (∀ e, err.error = some e → err.unknown = true → v ≠ Verbosity.verbose →
        (exit_with_error err v).1.head? =
          some (OutEvent.error "An unknown error occurred")) := by
  refine ⟨?_, ?_, ?_⟩
  · simp only [exit_with_error]
    cases err.error <;> rfl
  · intro e he hhide
    rcases err with ⟨oe, code, unk⟩
    cases he
    simp only [exit_with_error]
    rw [if_neg hhide]
    by_cases hcode : code ≠ 0
    · rw [if_pos hcode, if_pos hcode]; rfl
    · rw [if_neg hcode, if_neg hcode]; rfl
  · intro e he hu hv
    rcases err with ⟨oe, code, unk⟩
    cases he
    simp only [exit_with_error]
    rw [if_pos ⟨hu, hv⟩]
    rfl

/-- C4 amended witness at concrete errors: a fatal known error exits
with its code 101 and reports its own message as an error. -/
theorem exit_with_error_exit_code_amended_witness :
    (exit_with_error { error := some demoErrPlain, exit_code := 101, unknown := false }
        Verbosity.normal).2 =
      (CliError.mk (some demoErrPlain) 101 false).exit_code
    ∧ (exit_with_error { error := some demoErrPlain, exit_code := 101, unknown := false }
        Verbosity.normal).1.head? =
      some (if (101 : Int) ≠ 0 then OutEvent.error demoErrPlain.message
            else OutEvent.say demoErrPlain.message) :=
  ⟨(exit_with_error_exit_code_amended
      { error := some demoErrPlain, exit_code := 101, unknown := false }
      Verbosity.normal).1,
   (exit_with_error_exit_code_amended
      { error := some demoErrPlain, exit_code := 101, unknown := false }
      Verbosity.normal).2.1 demoErrPlain rfl (by decide)⟩

/-- C9: `call_main_without_stdin` runs `exec` exactly when docopt
decoding succeeds; on a decoding failure it returns a `CliError`
wrapping the docopt error's message, with exit code 1 when the docopt
error is fatal and 0 otherwise, and the result does not depend on
`exec` at all. -/
theorem call_main_without_stdin_decode_behaviour {Flags Config : Type}
    (decode : String → List String → Bool → Except DocoptError Flags)
    (exec : Flags → Config → Except CliError Unit) (config : Config)
    (usage : String) (args : List String) (optionsFirst : Bool) :
    (∀ f, decode usage args optionsFirst = Except.ok f →
      call_main_without_stdin decode exec config usage args optionsFirst = exec f config)
    ∧ (∀ de, decode usage args optionsFirst = Except.error de →
      call_main_without_stdin decode exec config usage args optionsFirst =
        Except.error (CliError.new de.message (if de.fatal then 1 else 0))
      ∧ (CliError.new de.message (if de.fatal then 1 else 0)).exit_code =
          (if de.fatal then 1 else 0)
      ∧ (CliError.new de.message (if de.fatal then 1 else 0)).error =
          some { kind := CargoErrorKind.msg, message := de.message, causes := [] }
      ∧ ∀ exec2 : Flags → Config → Except CliError Unit,
          call_main_without_stdin decode exec config usage args optionsFirst =
            call_main_without_stdin decode exec2 config usage args optionsFirst) := by
  constructor
  · intro f hf
    unfold call_main_without_stdin
    rw [hf]
  · intro de hde
    refine ⟨?_, rfl, rfl, ?_⟩
    · unfold call_main_without_stdin
      rw [hde]
    · intro exec2
      unfold call_main_without_stdin
      rw [hde]

/-- C9 witness at a concrete failing decoder: the non-fatal docopt
error is wrapped with exit code 0. -/
theorem call_main_without_stdin_decode_behaviour_witness :
    call_main_without_stdin demoDecodeErr demoExec () "usage" [] true =
      Except.error (CliError.new (DocoptError.mk "cargo 0.1" false).message
        (if (DocoptError.mk "cargo 0.1" false).fatal then 1 else 0))
    ∧ (CliError.new (DocoptError.mk "cargo 0.1" false).message
        (if (DocoptError.mk "cargo 0.1" false).fatal then 1 else 0)).exit_code =
      (if (DocoptError.mk "cargo 0.1" false).fatal then 1 else 0)
    ∧ (CliError.new (DocoptError.mk "cargo 0.1" false).message
        (if (DocoptError.mk "cargo 0.1" false).fatal then 1 else 0)).error =
      some { kind := CargoErrorKind.msg, message := (DocoptError.mk "cargo 0.1" false).message,
             causes := [] }
    ∧ ∀ exec2 : Nat → Unit → Except CliError Unit,
        call_main_without_stdin demoDecodeErr demoExec () "usage" [] true =
          call_main_without_stdin demoDecodeErr exec2 () "usage" [] true :=
  (call_main_without_stdin_decode_behaviour demoDecodeErr demoExec () "usage" [] true).2
    (DocoptError.mk "cargo 0.1" false) rfl

/-- C10: the Display rendering of a `VersionInfo` is `cargo` followed by
`major.minor.patch`, then the `-channel` suffix together with the
pre-release string exactly when `cfg_info` is present with a channel
other than `stable`, then the short commit hash and date in parentheses
exactly when `cfg_info` is present and carries commit information. -/
theorem versionInfoDisplay_structure (v : VersionInfo) :
    versionInfoDisplay v =
      "cargo " ++ v.major ++ "." ++ v.minor ++ "." ++ v.patch
      ++ (match v.cfg_info with
          | some ci =>
            if ci.release_channel ≠ "stable" then
              "-" ++ ci.release_channel ++ v.pre_release.getD ""
            else ""
          | none => "")
      ++ (match v.cfg_info with
          | some ci =>
            match ci.commit_info with
            | some com => " (" ++ com.short_commit_hash ++ " " ++ com.commit_date ++ ")"
            | none => ""
          | none => "") := by
  rcases v with ⟨ma, mi, pa, pre, cfg⟩
  cases cfg with
  | none => simp [versionInfoDisplay, String.append_empty]
  | some ci =>
    rcases ci with ⟨com, ch⟩
    by_cases hch : ch = "stable"
    · subst hch
      cases com with
      | none => simp [versionInfoDisplay, String.append_empty]
      | some c => simp [versionInfoDisplay, String.append_empty, String.append_assoc]
    · cases com with
      | none => simp [versionInfoDisplay, hch, String.append_empty, String.append_assoc]
      | some c => simp [versionInfoDisplay, hch, String.append_empty, String.append_assoc]

theorem firstSome_eq_some {α β : Type} (f : α → Option β) (l : List α) (b : β)
    (h : firstSome f l = some b) : ∃ a ∈ l, f a = some b := by
  induction l with
  | nil => simp [firstSome] at h
  | cons a rest ih =>
    rw [firstSome] at h
    cases hfa : f a with
    | some b2 =>
      rw [hfa] at h
      exact ⟨a, List.mem_cons_self a rest, hfa.trans h⟩
    | none =>
      rw [hfa] at h
      obtain ⟨a2, hm, hf2⟩ := ih h
      exact ⟨a2, List.mem_cons_of_mem a hm, hf2⟩

theorem firstSome_cons_of_some {α β : Type} (f : α → Option β) (a : α) (l : List α)
    (b : β) (h : f a = some b) : firstSome f (a :: l) = some b := by
  rw [firstSome, h]

theorem mem_insertByVersionDesc (a s : Summary) (l : List Summary) :
    a ∈ insertByVersionDesc s l ↔ a = s ∨ a ∈ l := by
  induction l with
  | nil => simp [insertByVersionDesc]
  | cons t ts ih =>
    rw [insertByVersionDesc]
    by_cases h : t.version ≤ s.version
    · simp [h]
    · simp only [h, if_false, List.mem_cons, ih]
      tauto

theorem mem_sortByVersionDesc (a : Summary) (l : List Summary) :
    a ∈ sortByVersionDesc l ↔ a ∈ l := by
  induction l with
  | nil => simp [sortByVersionDesc]
  | cons s ss ih =>
    rw [sortByVersionDesc, mem_insertByVersionDesc, ih]
    simp

theorem mem_availCandidates (c : Summary) (src : List Summary) (d : Dep) :
    c ∈ availCandidates src d ↔
      c ∈ src ∧ c.name = d.name ∧ d.satisfiedBy c.version = true := by
  rw [availCandidates, mem_sortByVersionDesc, List.mem_filter]
  simp [Bool.and_eq_true, beq_iff_eq, and_assoc]

theorem mem_candidatesFor_satisfied (c : Summary) (src : List Summary)
    (lock : Option (List Summary)) (d : Dep) (h : c ∈ candidatesFor src lock d) :
    c.name = d.name ∧ d.satisfiedBy c.version = true := by
  have hav : ∀ x : Summary, x ∈ availCandidates src d →
      x.name = d.name ∧ d.satisfiedBy x.version = true := by
    intro x hx
    exact ((mem_availCandidates x src d).mp hx).2
  cases lock with
  | none =>
    simp only [candidatesFor] at h
    exact hav c h
  | some lk =>
    cases hfind : lk.find? (fun s => s.name == d.name) with
    | none =>
      simp only [candidatesFor, hfind] at h
      exact hav c h
    | some l =>
      simp only [candidatesFor, hfind] at h
      by_cases hl : l ∈ availCandidates src d
      · rw [if_pos hl] at h
        rcases List.mem_cons.mp h with rfl | hm
        · exact hav c hl
        · exact hav c (List.mem_of_mem_filter hm)
      · rw [if_neg hl] at h
        exact hav c h

theorem resolveGo_edges_satisfied (fuel : Nat) :
    ∀ (src : List Summary) (lock : Option (List Summary)) (activated : List Summary)
      (work : List Dep) (edges : List ResolveEdge) (R : Resolve),
      resolveGo fuel src lock activated work edges = some R →
      (∀ e ∈ edges, e.dep.satisfiedBy e.targetVersion = true) →
      ∀ e ∈ R.edges, e.dep.satisfiedBy e.targetVersion = true := by
  induction fuel with
  | zero =>
    intro src lock activated work edges R h
    simp [resolveGo] at h
  | succ fuel ih =>
    intro src lock activated work edges R h hedges
    cases work with
    | nil =>
      simp only [resolveGo] at h
      cases h
      exact hedges
    | cons d rest =>
      simp only [resolveGo] at h
      cases hfind : List.find? (fun s => s.name == d.name) activated with
      | some s =>
        simp only [hfind] at h
        by_cases hsat : d.satisfiedBy s.version = true
        · rw [if_pos hsat] at h
          refine ih src lock activated rest _ R h ?_
          intro e he
          rcases List.mem_cons.mp he with rfl | hm
          · exact hsat
          · exact hedges e hm
        · rw [if_neg hsat] at h
          exact absurd h (by simp)
      | none =>
        simp only [hfind] at h
        obtain ⟨c, hcm, hcall⟩ := firstSome_eq_some _ _ _ h
        have hcs := mem_candidatesFor_satisfied c src lock d hcm
        refine ih src lock (c :: activated) (c.deps ++ rest) _ R hcall ?_
        intro e he
        rcases List.mem_cons.mp he with rfl | hm
        · exact hcs.2
        · exact hedges e hm

/-- C6: whenever resolution succeeds, every edge of the produced Resolve
has its version requirement satisfied by the version of the edge's
target. -/
theorem resolve_edges_satisfied (fuel : Nat) (src : List Summary)
    (lock : Option (List Summary)) (reqs : List Dep) (R : Resolve)
    (h : resolve fuel src lock reqs = some R) :
    ∀ e ∈ R.edges, e.dep.satisfiedBy e.targetVersion = true :=
  resolveGo_edges_satisfied fuel src lock [] reqs [] R h (by simp)

/-- C6 witness at a concrete resolution. -/
theorem resolve_edges_satisfied_witness :
    resolve 10 demoSrc none demoReqs = some demoResolve
    ∧ ∀ e ∈ demoResolve.edges, e.dep.satisfiedBy e.targetVersion = true :=
  ⟨by decide, resolve_edges_satisfied 10 demoSrc none demoReqs demoResolve (by decide)⟩

/-- C5: the resolver is a pure function of its inputs — identical root
requirements, lockfile and Source responses yield the same Resolve and
byte-identical Lockfile serialization. -/
theorem resolve_deterministic (fuel : Nat) (src1 src2 : List Summary)
    (lock1 lock2 : Option (List Summary)) (reqs1 reqs2 : List Dep)
    (hs : src1 = src2) (hl : lock1 = lock2) (hr : reqs1 = reqs2) :
    resolve fuel src1 lock1 reqs1 = resolve fuel src2 lock2 reqs2
    ∧ Option.map serializeLockfile (resolve fuel src1 lock1 reqs1) =
        Option.map serializeLockfile (resolve fuel src2 lock2 reqs2) := by
  subst hs
  subst hl
  subst hr
  exact ⟨rfl, rfl⟩

/-- C5 witness: two runs on the demo inputs agree, with byte-identical
lockfile serialization. -/
theorem resolve_deterministic_witness :
    resolve 10 demoSrc none demoReqs = resolve 10 demoSrc none demoReqs
    ∧ Option.map serializeLockfile (resolve 10 demoSrc none demoReqs) =
        Option.map serializeLockfile (resolve 10 demoSrc none demoReqs) :=
  resolve_deterministic 10 demoSrc demoSrc none none demoReqs demoReqs rfl rfl rfl

theorem resolveGo_pkgs_extend (fuel : Nat) :
    ∀ (src : List Summary) (lock : Option (List Summary)) (activated : List Summary)
      (work : List Dep) (edges : List ResolveEdge) (R : Resolve),
      resolveGo fuel src lock activated work edges = some R →
      ∃ pre, R.pkgs = pre ++ activated := by
  induction fuel with
  | zero =>
    intro src lock activated work edges R h
    simp [resolveGo] at h
  | succ fuel ih =>
    intro src lock activated work edges R h
    cases work with
    | nil =>
      simp only [resolveGo] at h
      cases h
      exact ⟨[], rfl⟩
    | cons d rest =>
      simp only [resolveGo] at h
      cases hfind : List.find? (fun s => s.name == d.name) activated with
      | some s =>
        simp only [hfind] at h
        by_cases hsat : d.satisfiedBy s.version = true
        · rw [if_pos hsat] at h
          exact ih src lock activated rest _ R h
        · rw [if_neg hsat] at h
          exact absurd h (by simp)
      | none =>
        simp only [hfind] at h
        obtain ⟨c, _, hcall⟩ := firstSome_eq_some _ _ _ h
        obtain ⟨pre, hpre⟩ := ih src lock (c :: activated) (c.deps ++ rest) _ R hcall
        exact ⟨pre ++ [c], by rw [hpre, List.append_assoc, List.singleton_append]⟩

theorem resolveGo_names_nodup (fuel : Nat) :
    ∀ (src : List Summary) (lock : Option (List Summary)) (activated : List Summary)
      (work : List Dep) (edges : List ResolveEdge) (R : Resolve),
      (activated.map Summary.name).Nodup →
      resolveGo fuel src lock activated work edges = some R →
      (R.pkgs.map Summary.name).Nodup := by
  induction fuel with
  | zero =>
    intro src lock activated work edges R _ h
    simp [resolveGo] at h
  | succ fuel ih =>
    intro src lock activated work edges R hnd h
    cases work with
    | nil =>
      simp only [resolveGo] at h
      cases h
      exact hnd
    | cons d rest =>
      simp only [resolveGo] at h
      cases hfind : List.find? (fun s => s.name == d.name) activated with
      | some s =>
        simp only [hfind] at h
        by_cases hsat : d.satisfiedBy s.version = true
        · rw [if_pos hsat] at h
          exact ih src lock activated rest _ R hnd h
        · rw [if_neg hsat] at h
          exact absurd h (by simp)
      | none =>
        simp only [hfind] at h
        obtain ⟨c, hcm, hcall⟩ := firstSome_eq_some _ _ _ h
        have hname : c.name = d.name := (mem_candidatesFor_satisfied c src lock d hcm).1
        have hnotmem : c.name ∉ activated.map Summary.name := by
          intro hmem
          obtain ⟨x, hx, hxn⟩ := List.mem_map.mp hmem
          have hxfalse : ¬(x.name == d.name) = true :=
            List.find?_eq_none.mp hfind x hx
          exact hxfalse (beq_iff_eq.mpr (hxn.trans hname))
        have hnd2 : ((c :: activated).map Summary.name).Nodup := by
          rw [List.map_cons]
          exact List.nodup_cons.mpr ⟨hnotmem, hnd⟩
        exact ih src lock (c :: activated) (c.deps ++ rest) _ R hnd2 hcall

theorem find?_name_of_prefix (pre rest : List Summary) (n : String)
    (hpre : ∀ x ∈ pre, (x.name == n) = false) :
    List.find? (fun s => s.name == n) (pre ++ rest) =
      List.find? (fun s => s.name == n) rest := by
  induction pre with
  | nil => rfl
  | cons x xs ih =>
    rw [List.cons_append, List.find?_cons_of_neg, ih]
    · intro y hy
      exact hpre y (List.mem_cons_of_mem x hy)
    · simp [hpre x (List.mem_cons_self x xs)]

theorem resolveGo_lock_stable (src src2 : List Summary) (R : Resolve)
    (hnd : (R.pkgs.map Summary.name).Nodup)
    (hsrc2 : ∀ s ∈ R.pkgs, s ∈ src2) :
    ∀ (fuel : Nat) (activated : List Summary) (work : List Dep)
      (edges : List ResolveEdge),
      resolveGo fuel src none activated work edges = some R →
      resolveGo fuel src2 (some R.pkgs) activated work edges = some R := by
  intro fuel
  induction fuel with
  | zero =>
    intro activated work edges h
    simp [resolveGo] at h
  | succ fuel ih =>
    intro activated work edges h
    cases work with
    | nil =>
      simp only [resolveGo] at h ⊢
      exact h
    | cons d rest =>
      simp only [resolveGo] at h ⊢
      cases hfind : List.find? (fun s => s.name == d.name) activated with
      | some s =>
        simp only [hfind] at h ⊢
        by_cases hsat : d.satisfiedBy s.version = true
        · rw [if_pos hsat] at h ⊢
          exact ih activated rest _ h
        · rw [if_neg hsat] at h
          exact absurd h (by simp)
      | none =>
        simp only [hfind] at h ⊢
        obtain ⟨c, hcm, hcall⟩ := firstSome_eq_some _ _ _ h
        have hcm2 : c ∈ availCandidates src d := by
          simpa [candidatesFor] using hcm
        have hname : c.name = d.name := ((mem_availCandidates c src d).mp hcm2).2.1
        have hsat : d.satisfiedBy c.version = true :=
          ((mem_availCandidates c src d).mp hcm2).2.2
        obtain ⟨pre, hpre⟩ :=
          resolveGo_pkgs_extend fuel src none (c :: activated) (c.deps ++ rest) _ R hcall
        have hcR : c ∈ R.pkgs := by
          rw [hpre]
          exact List.mem_append_right pre (List.mem_cons_self c activated)
        have hcav2 : c ∈ availCandidates src2 d :=
          (mem_availCandidates c src2 d).mpr ⟨hsrc2 c hcR, hname, hsat⟩
        have hdisj : ∀ y ∈ pre.map Summary.name, y ∉ (c :: activated).map Summary.name := by
          have hnd2 := hnd
          rw [hpre, List.map_append] at hnd2
          intro y hy hmem
          exact (List.nodup_append.mp hnd2).2.2 hy hmem
        have hprenames : ∀ x ∈ pre, (x.name == d.name) = false := by
          intro x hx
          have hmem1 : x.name ∈ pre.map Summary.name := List.mem_map_of_mem _ hx
          apply beq_eq_false_iff_ne.mpr
          intro heq
          apply hdisj x.name hmem1
          rw [List.map_cons]
          exact heq.trans hname.symm ▸ List.mem_cons_self c.name _
        have hfindR : List.find? (fun s => s.name == d.name) R.pkgs = some c := by
          rw [hpre, find?_name_of_prefix pre _ d.name hprenames]
          simp [List.find?, hname]
        have hcand2 : candidatesFor src2 (some R.pkgs) d =
            c :: (availCandidates src2 d).filter (fun s => decide (s ≠ c)) := by
          simp only [candidatesFor, hfindR]
          rw [if_pos hcav2]
        rw [hcand2]
        exact firstSome_cons_of_some _ _ _ _ (ih (c :: activated) (c.deps ++ rest) _ hcall)

/-- C7: a Resolve produced from the root requirements, used as the prior
lockfile, is reproduced exactly by a re-resolution with unchanged root
requirements against any Source that still offers every locked package
— even one offering newer compatible versions — and the serialized
Lockfile is identical. -/
theorem resolve_lockfile_stability (fuel : Nat) (src src2 : List Summary)
    (reqs : List Dep) (R : Resolve)
    (h : resolve fuel src none reqs = some R)
    (hsrc2 : ∀ s ∈ R.pkgs, s ∈ src2) :
    resolve fuel src2 (some R.pkgs) reqs = some R
    ∧ Option.map serializeLockfile (resolve fuel src2 (some R.pkgs) reqs) =
        some (serializeLockfile R) := by
  have hnd : (R.pkgs.map Summary.name).Nodup :=
    resolveGo_names_nodup fuel src none [] reqs [] R (by simp) h
  have hmain := resolveGo_lock_stable src src2 R hnd hsrc2 fuel [] reqs [] h
  refine ⟨hmain, ?_⟩
  simp only [resolve]
  rw [hmain]
  rfl

/-- C7 witness: the demo resolution pins b 2; re-resolving with that
lockfile against a Source additionally offering the newer compatible
b 3 reproduces the identical Resolve and Lockfile. -/
theorem resolve_lockfile_stability_witness :
    resolve 10 demoSrc2 (some demoResolve.pkgs) demoReqs = some demoResolve
    ∧ Option.map serializeLockfile (resolve 10 demoSrc2 (some demoResolve.pkgs) demoReqs) =
        some (serializeLockfile demoResolve) :=
  resolve_lockfile_stability 10 demoSrc demoSrc2 demoReqs demoResolve (by decide)
    (by decide)

theorem countP_set {α : Type} (p : α → Bool) (l : List α) (i : Nat) (a b : α)
    (h : l.get? i = some a) :
    (l.set i b).countP p + (if p a then 1 else 0) =
      l.countP p + (if p b then 1 else 0) := by
  induction l generalizing i with
  | nil => simp at h
  | cons x xs ih =>
    cases i with
    | zero =>
      simp only [List.get?] at h
      cases h
      simp only [List.set]
      rw [List.countP_cons, List.countP_cons]
      omega
    | succ n =>
      simp only [List.get?] at h
      simp only [List.set]
      rw [List.countP_cons, List.countP_cons]
      have := ih n h
      omega

theorem schedStep_running_le (budget : Nat) (units : List BuildUnit)
    {s t : List UnitState} (hstep : SchedStep budget units s t)
    (hs : runningCount s ≤ budget) : runningCount t ≤ budget := by
  cases hstep with
  | makeReady i u hu hst hdeps =>
    have hc := countP_set (fun st => decide (st = UnitState.running)) s i
      UnitState.pending UnitState.ready hst
    simp only [runningCount] at hs ⊢
    simp at hc
    omega
  | start i hst htok =>
    have hc := countP_set (fun st => decide (st = UnitState.running)) s i
      UnitState.ready UnitState.running hst
    simp only [runningCount] at hs htok ⊢
    simp at hc
    omega
  | finishOk i hst =>
    have hc := countP_set (fun st => decide (st = UnitState.running)) s i
      UnitState.running UnitState.succeeded hst
    simp only [runningCount] at hs ⊢
    simp at hc
    omega
  | finishFail i hst =>
    have hc := countP_set (fun st => decide (st = UnitState.running)) s i
      UnitState.running UnitState.failed hst
    simp only [runningCount] at hs ⊢
    simp at hc
    omega
  | propagateFail i u j hu hst hj hjf =>
    rcases hst with hst | hst
    · have hc := countP_set (fun st => decide (st = UnitState.running)) s i
        UnitState.pending UnitState.failed hst
      simp only [runningCount] at hs ⊢
      simp at hc
      omega
    · have hc := countP_set (fun st => decide (st = UnitState.running)) s i
        UnitState.ready UnitState.failed hst
      simp only [runningCount] at hs ⊢
      simp at hc
      omega

/-- C8: in every state the scheduler can reach from the initial
all-Pending state, the number of Units simultaneously Running never
exceeds the token-pool budget. -/
theorem sched_running_le_budget (budget : Nat) (units : List BuildUnit)
    (sts : List UnitState) (h : SchedReachable budget units sts) :
    runningCount sts ≤ budget := by
  induction h with
  | init =>
    have hz : runningCount (initSched units.length) = 0 := by
      rw [runningCount, initSched]
      induction units.length with
      | zero => rfl
      | succ n ihn => simp [List.replicate, List.countP_cons, ihn]
    omega
  | step hs hstep ih => exact schedStep_running_le budget units hstep ih

/-- C8 witness: the initial state of a one-unit scheduler with budget 1
is reachable and respects the bound. -/
theorem sched_running_le_budget_witness :
    runningCount (initSched (List.length [BuildUnit.mk []])) ≤ 1 :=
  sched_running_le_budget 1 [BuildUnit.mk []] (initSched (List.length [BuildUnit.mk []]))
    SchedReachable.init
